import Mathlib

/-!
# Verification of the deployment orchestrator

A shallow embedding of `processDeployment` and its collaborators from
`packages/cli/src/util/deploy/process-deployment.ts`, together with the
upload-progress reporter (`updateProgress`) and the build-log stream
decoder, and proofs of the specified properties.

The orchestrator consumes a stream of deployment events.  We embed the
event loop as a step function over an explicit event list; effects that
the TypeScript code performs through collaborators are recorded in the
state:

* spinner updates (`output.spinner(...)`) append a `Spinner` label to a
  trace;
* the `AbortController` created for a follow-mode build-log subscription
  (`displayBuildLogs`) is recorded in a list of controllers, most recent
  first, `true` meaning aborted; `stopSpinner` aborts the most recent one;
* `linkFolderToProject` calls are counted;
* `now.handleDeploymentError` is an external collaborator and is passed
  in as a function from the `error` event's payload to an error record.
-/

namespace Deploy

/-- The advisory event kinds collected as indications
(`['tip', 'notice', 'warning'].includes(event.type)`). -/
inductive IndKind where
  | tip
  | notice
  | warning
deriving DecidableEq, Repr

/-- The `checksState` field of a `ready` payload.  The TypeScript type of
this field is the union `'registered' | 'running' | 'completed'`
(optional); we embed exactly that domain. -/
inductive ChecksState where
  | registered
  | running
  | completed
deriving DecidableEq, Repr

/-- The deployment record carried by the `created` event; only the fields
read by `processDeployment` are embedded. -/
structure Deployment where
  url : String
  readyState : String
deriving DecidableEq, Repr

/-- A generic terminal-event payload (`canceled`, `checks-conclusion-failed`,
`alias-assigned`).  `pid` is an abstract identity for the payload object;
`indications` embeds the `indications` property that `processDeployment`
assigns on the `alias-assigned` payload before returning it. -/
structure Payload where
  pid : Nat
  indications : List (IndKind × String) := []
deriving DecidableEq, Repr

/-- The error record produced by `now.handleDeploymentError`; only the
`code` field is inspected by `processDeployment`. -/
structure DeployError where
  code : String
deriving DecidableEq, Repr

/-- The deployment events consumed by the `for await` loop.  The
`fileCount` event carries the quantities the handler derives from its
payload: the current cumulative uploaded byte count (read by the
synchronous `updateProgress()` call) and the total missing byte count. -/
inductive Event where
  | advisory (k : IndKind) (msg : String)
  | fileCount (uploadedBytes missingSize : Nat)
  | fileUploaded
  | created (d : Deployment)
  | building
  | canceled (p : Payload)
  | ready (checksState : Option ChecksState)
  | checksRunning
  | checksFailed (p : Payload)
  | errorEvent (payloadId : Nat)
  | aliasAssigned (p : Payload)
deriving DecidableEq, Repr

/-- The spinner labels `processDeployment` displays.  `deploying` stands
for the initial `deployingSpinnerVal` text (also re-shown by
`updateProgress` when the progress bar is unavailable). -/
inductive Spinner where
  | deploying
  | uploading
  | queued
  | building
  | runningChecks
  | completing
deriving DecidableEq, Repr

/-- A value returned by `processDeployment`.  `undef` is the implicit
`undefined` returned when the `for await` loop exhausts the stream
without hitting a `return`. -/
inductive RetVal where
  | deployment (d : Deployment)
  | canceledPayload (p : Payload)
  | checksFailedPayload (p : Payload)
  | structuredError (e : DeployError)
  | aliasPayload (p : Payload)
  | undef
deriving DecidableEq, Repr

/-- An error thrown by `processDeployment`. -/
inductive Err where
  | missingToken
  | deployErr (e : DeployError)
deriving DecidableEq, Repr

/-- The single outcome of a `processDeployment` call: a returned value or
a thrown error. -/
inductive Outcome where
  | ret (v : RetVal)
  | thrown (e : Err)
deriving DecidableEq, Repr

/-- The inputs of `processDeployment` that the embedded behaviour depends
on: the authentication token (`now._token`), the `noWait` and `withLogs`
options, and the external `now.handleDeploymentError` collaborator. -/
structure Config where
  token : Option String
  noWait : Bool
  withLogs : Bool
  handleError : Nat → DeployError

/-- The mutable state threaded through the event loop: the accumulated
`indications` array, the abort controllers created so far (most recent
first, `true` = aborted), and the number of `linkFolderToProject` calls. -/
structure OrchState where
  indications : List (IndKind × String)
  controllers : List Bool
  linkCalls : Nat
deriving DecidableEq, Repr

/-- `stopSpinner`: aborts the current abort controller, if any
(`abortController?.abort()`). -/
def stopSpinnerAbort : List Bool → List Bool
  | [] => []
  | _ :: rest => true :: rest

/-- The progress-bar renderer `progress(current, total)` from
`util/output/progress` (not under `src/`); only its truthiness is
observed by `updateProgress`.  Modelled as rendering a bar exactly when
the total is positive and the current count does not exceed it. -/
def progressBar (current total : Nat) : Bool :=
  decide (0 < total ∧ current ≤ total)

/-- The JavaScript test `checksState ? checksState === 'completed' : true`
on a `ready` payload. -/
def checksOk : Option ChecksState → Bool
  | none => true
  | some c => decide (c = ChecksState.completed)

/-- One iteration of the `for await` loop of `processDeployment` on one
event: returns the halting outcome (if the body executed `return` or
`throw`), the successor state, and the spinner labels displayed (each
event displays at most one). -/
def stepEvent (cfg : Config) (st : OrchState) : Event → Option Outcome × OrchState × List Spinner
  | .advisory k m =>
      (none, { st with indications := st.indications ++ [(k, m)] }, [])
  | .fileCount u s =>
      -- the synchronous `updateProgress()` call at the end of the handler,
      -- with `nextStep = 0`: a missing bar re-shows the deploying spinner,
      -- otherwise `percent >= 0` holds and the upload bar is shown
      (none, st, [if progressBar u s then Spinner.uploading else Spinner.deploying])
  | .fileUploaded => (none, st, [])
  | .created d =>
      let st1 : OrchState := { st with linkCalls := st.linkCalls + 1 }
      let st2 : OrchState := { st1 with controllers := stopSpinnerAbort st1.controllers }
      if cfg.noWait then
        (some (.ret (.deployment d)), st2, [])
      else
        let st3 : OrchState :=
          if cfg.withLogs then { st2 with controllers := false :: st2.controllers } else st2
        (none, st3, [if d.readyState = "QUEUED" then Spinner.queued else Spinner.building])
  | .building =>
      if cfg.withLogs then (none, st, []) else (none, st, [Spinner.building])
  | .canceled p =>
      (some (.ret (.canceledPayload p)), { st with controllers := stopSpinnerAbort st.controllers }, [])
  | .ready cs =>
      if checksOk cs && !cfg.withLogs then (none, st, [Spinner.completing])
      else (none, st, [])
  | .checksRunning =>
      if cfg.withLogs then (none, st, []) else (none, st, [Spinner.runningChecks])
  | .checksFailed p =>
      (some (.ret (.checksFailedPayload p)), { st with controllers := stopSpinnerAbort st.controllers }, [])
  | .errorEvent pid =>
      let st1 : OrchState := { st with controllers := stopSpinnerAbort st.controllers }
      let e := cfg.handleError pid
      if e.code = "missing_project_settings" ∨ e.code = "forbidden" then
        (some (.ret (.structuredError e)), st1, [])
      else
        -- the `throw error` propagates through the surrounding `catch`,
        -- which runs `stopSpinner()` once more before rethrowing
        (some (.thrown (.deployErr e)), { st1 with controllers := stopSpinnerAbort st1.controllers }, [])
  | .aliasAssigned p =>
      (some (.ret (.aliasPayload { p with indications := st.indications })),
       { st with controllers := stopSpinnerAbort st.controllers }, [])

/-- The `for await` loop: processes events until one halts; an exhausted
stream falls out of the loop and returns `undefined`. -/
def runLoop (cfg : Config) : OrchState → List Event → Outcome × OrchState × List Spinner
  | st, [] => (.ret .undef, st, [])
  | st, e :: rest =>
      match stepEvent cfg st e with
      | (some o, st1, out) => (o, st1, out)
      | (none, st1, out) =>
          let r := runLoop cfg st1 rest
          (r.1, r.2.1, out ++ r.2.2)

/-- The observable result of one `processDeployment` call. -/
structure Result where
  outcome : Outcome
  trace : List Spinner
  controllers : List Bool
  linkCalls : Nat
deriving DecidableEq, Repr

/-- The state at entry of the event loop. -/
def initOrch : OrchState := ⟨[], [], 0⟩

/-- `processDeployment`: throws `Missing authentication token` when
`now._token` is absent, before any spinner or stream activity; otherwise
shows the deploying spinner and runs the event loop. -/
def processDeployment (cfg : Config) (events : List Event) : Result :=
  match cfg.token with
  | none => ⟨.thrown .missingToken, [], [], 0⟩
  | some _ =>
      let r := runLoop cfg initOrch events
      ⟨r.1, Spinner.deploying :: r.2.2, r.2.1.controllers, r.2.1.linkCalls⟩

/-- Whether processing this event makes the loop body `return` or `throw`. -/
def haltsOn (cfg : Config) : Event → Bool
  | .created _ => cfg.noWait
  | .canceled _ => true
  | .checksFailed _ => true
  | .errorEvent _ => true
  | .aliasAssigned _ => true
  | _ => false

/-- The four terminal event kinds of the stream contract. -/
def isTerminalEv : Event → Bool
  | .canceled _ => true
  | .checksFailed _ => true
  | .errorEvent _ => true
  | .aliasAssigned _ => true
  | _ => false

/-- The outcomes the terminal-exclusivity property enumerates: one of the
four terminal payload returns, or a thrown error. -/
def claimedTerminal : Outcome → Bool
  | .ret (.canceledPayload _) => true
  | .ret (.checksFailedPayload _) => true
  | .ret (.structuredError _) => true
  | .ret (.aliasPayload _) => true
  | .thrown _ => true
  | _ => false

/-- The advisory events of a list, in order, as collected into the
`indications` array. -/
def indicationsOf (evs : List Event) : List (IndKind × String) :=
  evs.filterMap fun e =>
    match e with
    | .advisory k m => some (k, m)
    | _ => none

/-- The state after processing a list of events (ignoring halts). -/
def procState (cfg : Config) : OrchState → List Event → OrchState
  | st, [] => st
  | st, e :: rest => procState cfg (stepEvent cfg st e).2.1 rest

/-- The spinner labels emitted along a list of events (ignoring halts). -/
def procTrace (cfg : Config) : OrchState → List Event → List Spinner
  | _, [] => []
  | st, e :: rest => (stepEvent cfg st e).2.2 ++ procTrace cfg (stepEvent cfg st e).2.1 rest

theorem stepEvent_none (cfg : Config) (st : OrchState) (e : Event)
    (h : haltsOn cfg e = false) : (stepEvent cfg st e).1 = none := by
  cases e <;> simp_all [stepEvent, haltsOn] <;> split <;> simp_all

theorem terminal_halts (cfg : Config) (st : OrchState) (e : Event)
    (h : isTerminalEv e = true) : (stepEvent cfg st e).1.isSome = true := by
  cases e <;> simp_all [stepEvent, isTerminalEv] <;> split <;> simp_all

theorem runLoop_append (cfg : Config) (st : OrchState) (pre rest : List Event)
    (hpre : ∀ e ∈ pre, haltsOn cfg e = false) :
    runLoop cfg st (pre ++ rest) =
      ((runLoop cfg (procState cfg st pre) rest).1,
       (runLoop cfg (procState cfg st pre) rest).2.1,
       procTrace cfg st pre ++ (runLoop cfg (procState cfg st pre) rest).2.2) := by
  induction pre generalizing st with
  | nil => simp [procState, procTrace]
  | cons e pre ih =>
      have he : haltsOn cfg e = false := hpre e (by simp)
      have hstep := stepEvent_none cfg st e he
      rcases hse : stepEvent cfg st e with ⟨o, st1, out⟩
      rw [hse] at hstep
      simp only at hstep
      subst hstep
      have htail : ∀ x ∈ pre, haltsOn cfg x = false := fun x hx => hpre x (by simp [hx])
      simp only [List.cons_append, runLoop, hse, procState, procTrace, List.append_eq,
        ih st1 htail, List.append_assoc]

theorem stepEvent_indications (cfg : Config) (st : OrchState) (e : Event) :
    (stepEvent cfg st e).2.1.indications = st.indications ++ indicationsOf [e] := by
  cases e <;> simp [stepEvent, indicationsOf, apply_ite]

theorem procState_indications (cfg : Config) (st : OrchState) (evs : List Event) :
    (procState cfg st evs).indications = st.indications ++ indicationsOf evs := by
  induction evs generalizing st with
  | nil => simp [procState, indicationsOf]
  | cons e rest ih =>
      simp only [procState, ih, stepEvent_indications]
      simp [indicationsOf, List.filterMap_cons]
      split <;> simp

theorem stepEvent_controllers_eq (cfg : Config) (st : OrchState) (e : Event)
    (hnw : cfg.noWait = true) (h : haltsOn cfg e = false) :
    (stepEvent cfg st e).2.1.controllers = st.controllers := by
  cases e <;> simp_all [stepEvent, haltsOn] <;> split <;> simp_all

theorem procState_controllers_eq (cfg : Config) (st : OrchState) (evs : List Event)
    (hnw : cfg.noWait = true) (h : ∀ e ∈ evs, haltsOn cfg e = false) :
    (procState cfg st evs).controllers = st.controllers := by
  induction evs generalizing st with
  | nil => rfl
  | cons e rest ih =>
      simp only [procState]
      rw [ih _ fun x hx => h x (by simp [hx]),
        stepEvent_controllers_eq cfg st e hnw (h e (by simp))]

theorem processDeployment_some (cfg : Config) (tk : String) (evs : List Event)
    (h : cfg.token = some tk) :
    processDeployment cfg evs =
      ⟨(runLoop cfg initOrch evs).1, Spinner.deploying :: (runLoop cfg initOrch evs).2.2,
       (runLoop cfg initOrch evs).2.1.controllers, (runLoop cfg initOrch evs).2.1.linkCalls⟩ := by
  unfold processDeployment
  rw [h]

theorem nonterminal_no_halt (cfg : Config) (e : Event) (hnw : cfg.noWait = false)
    (h : isTerminalEv e = false) : haltsOn cfg e = false := by
  cases e <;> simp_all [haltsOn, isTerminalEv]

theorem runLoop_cons_halt (cfg : Config) {st st1 : OrchState} {e : Event} {o : Outcome}
    {out : List Spinner} (rest : List Event)
    (h : stepEvent cfg st e = (some o, st1, out)) :
    runLoop cfg st (e :: rest) = (o, st1, out) := by
  simp only [runLoop, h]

theorem runLoop_cons_cont (cfg : Config) {st st1 : OrchState} {e : Event}
    {out : List Spinner} (rest : List Event)
    (h : stepEvent cfg st e = (none, st1, out)) :
    runLoop cfg st (e :: rest) =
      ((runLoop cfg st1 rest).1, (runLoop cfg st1 rest).2.1,
       out ++ (runLoop cfg st1 rest).2.2) := by
  simp only [runLoop, h]

theorem stepEvent_error_halt (cfg : Config) (st : OrchState) (pid : Nat) :
    stepEvent cfg st (Event.errorEvent pid) =
      (if (cfg.handleError pid).code = "missing_project_settings" ∨
          (cfg.handleError pid).code = "forbidden" then
        (some (Outcome.ret (RetVal.structuredError (cfg.handleError pid))),
         { st with controllers := stopSpinnerAbort st.controllers }, [])
      else
        (some (Outcome.thrown (Err.deployErr (cfg.handleError pid))),
         { st with controllers := stopSpinnerAbort (stopSpinnerAbort st.controllers) }, []) :
        Option Outcome × OrchState × List Spinner) := rfl

theorem runLoop_terminal_claimed (cfg : Config) (st : OrchState) (evs : List Event)
    (hnw : cfg.noWait = false) (h : ∃ e ∈ evs, isTerminalEv e = true) :
    claimedTerminal (runLoop cfg st evs).1 = true := by
  induction evs generalizing st with
  | nil => simp at h
  | cons e rest ih =>
      by_cases hterm : isTerminalEv e = true
      · cases e <;> simp only [isTerminalEv, Bool.false_eq_true] at hterm <;> try rfl
        rename_i pid
        · by_cases hc : (cfg.handleError pid).code = "missing_project_settings" ∨
              (cfg.handleError pid).code = "forbidden"
          · rw [runLoop_cons_halt cfg rest
              (by rw [stepEvent_error_halt, if_pos hc])]
            rfl
          · rw [runLoop_cons_halt cfg rest
              (by rw [stepEvent_error_halt, if_neg hc])]
            rfl
      · have hh : haltsOn cfg e = false :=
          nonterminal_no_halt cfg e hnw (by simpa using hterm)
        have hstep := stepEvent_none cfg st e hh
        rcases hse : stepEvent cfg st e with ⟨o, st1, out⟩
        rw [hse] at hstep
        simp only at hstep
        subst hstep
        have hrest : ∃ x ∈ rest, isTerminalEv x = true := by
          rcases h with ⟨x, hx, hxt⟩
          rcases List.mem_cons.mp hx with rfl | hx2
          · exact absurd hxt hterm
          · exact ⟨x, hx2, hxt⟩
        simpa only [runLoop, hse] using ih st1 hrest

/-- A shared plain configuration: token present, `noWait` and `withLogs`
unset, every server error mapped to an unrecognised code. -/
def errOther : DeployError := ⟨"unexpected_error"⟩

def cfgPlain : Config := ⟨some "tok", false, false, fun _ => errOther⟩

/-- C1 (counterexample): a finite event sequence that contains no terminal
event — here the empty stream — makes `processDeployment` fall out of the
`for await` loop and return `undefined`, which is none of the outcomes the
claim enumerates (alias payload, canceled payload, checks payload,
structured error, thrown error); so the claim does not hold of every
finite event sequence. -/
theorem empty_stream_returns_undefined :
    (processDeployment cfgPlain []).outcome = Outcome.ret RetVal.undef ∧
      claimedTerminal (processDeployment cfgPlain []).outcome = false :=
  ⟨rfl, rfl⟩

/-- C1 (amended): when `noWait` is unset, every finite event sequence
containing at least one terminal event (`canceled`,
`checks-conclusion-failed`, `error`, `alias-assigned`) makes
`processDeployment` produce exactly one of the enumerated outcomes — a
returned alias/canceled/checks payload or structured error, or a thrown
error — deciding at the first terminal event; a sequence with no terminal
event instead returns `undefined`. -/
theorem terminal_event_yields_listed_outcome (cfg : Config) (evs : List Event)
    (hnw : cfg.noWait = false) (h : ∃ e ∈ evs, isTerminalEv e = true) :
    claimedTerminal (processDeployment cfg evs).outcome = true := by
  unfold processDeployment
  cases htok : cfg.token with
  | none => rfl
  | some tk => exact runLoop_terminal_claimed cfg initOrch evs hnw h

theorem terminal_event_yields_listed_outcome_witness :
    cfgPlain.noWait = false ∧
      (∃ e ∈ [Event.canceled ⟨1, []⟩], isTerminalEv e = true) ∧
      claimedTerminal (processDeployment cfgPlain [Event.canceled ⟨1, []⟩]).outcome = true :=
  ⟨rfl, by decide,
    terminal_event_yields_listed_outcome cfgPlain [Event.canceled ⟨1, []⟩] rfl (by decide)⟩

/-- C2: on an `error` event the orchestrator runs the payload through
`handleDeploymentError` and returns the error as a structured result
exactly when its code is `missing_project_settings` or `forbidden`,
throwing it otherwise; `canceled` and `checks-conclusion-failed` events
always return the event payload, never throw. -/
theorem error_dispatch (cfg : Config) (tk : String) (pre : List Event)
    (pid : Nat) (p q : Payload)
    (htok : cfg.token = some tk)
    (hpre : ∀ e ∈ pre, haltsOn cfg e = false) :
    ((processDeployment cfg (pre ++ [Event.errorEvent pid])).outcome =
      if (cfg.handleError pid).code = "missing_project_settings" ∨
          (cfg.handleError pid).code = "forbidden" then
        Outcome.ret (RetVal.structuredError (cfg.handleError pid))
      else Outcome.thrown (Err.deployErr (cfg.handleError pid))) ∧
    (processDeployment cfg (pre ++ [Event.canceled p])).outcome =
      Outcome.ret (RetVal.canceledPayload p) ∧
    (processDeployment cfg (pre ++ [Event.checksFailed q])).outcome =
      Outcome.ret (RetVal.checksFailedPayload q) := by
  refine ⟨?_, ?_, ?_⟩ <;>
    rw [processDeployment_some cfg tk _ htok] <;>
    rw [runLoop_append cfg initOrch pre _ hpre]
  · by_cases hc : (cfg.handleError pid).code = "missing_project_settings" ∨
        (cfg.handleError pid).code = "forbidden"
    · rw [runLoop_cons_halt cfg []
        (by rw [stepEvent_error_halt, if_pos hc])]
      simp [hc]
    · rw [runLoop_cons_halt cfg []
        (by rw [stepEvent_error_halt, if_neg hc])]
      simp [hc]
  · rfl
  · rfl

theorem error_dispatch_witness :
    (processDeployment cfgPlain [Event.errorEvent 0]).outcome =
        Outcome.thrown (Err.deployErr errOther) ∧
      (processDeployment cfgPlain [Event.canceled ⟨1, []⟩]).outcome =
        Outcome.ret (RetVal.canceledPayload ⟨1, []⟩) := by
  have h := error_dispatch cfgPlain "tok" [] 0 ⟨1, []⟩ ⟨2, []⟩ rfl (by simp)
  refine ⟨?_, by simpa using h.2.1⟩
  have h1 := h.1
  simp only [List.nil_append] at h1 ⊢
  rw [h1]
  rfl

/-- C7: advisory `tip`/`notice`/`warning` events accumulate in order and
are attached (as the `indications` property) to the returned payload only
on terminal success (`alias-assigned`); a `canceled` or
`checks-conclusion-failed` payload is returned exactly as carried by the
event, with nothing attached, and structured/thrown errors carry no
indications field at all. -/
theorem indications_only_on_alias (cfg : Config) (tk : String) (pre : List Event)
    (p q r : Payload)
    (htok : cfg.token = some tk)
    (hpre : ∀ e ∈ pre, haltsOn cfg e = false) :
    (processDeployment cfg (pre ++ [Event.aliasAssigned p])).outcome =
      Outcome.ret (RetVal.aliasPayload { p with indications := indicationsOf pre }) ∧
    (processDeployment cfg (pre ++ [Event.canceled q])).outcome =
      Outcome.ret (RetVal.canceledPayload q) ∧
    (processDeployment cfg (pre ++ [Event.checksFailed r])).outcome =
      Outcome.ret (RetVal.checksFailedPayload r) := by
  refine ⟨?_, ?_, ?_⟩ <;>
    rw [processDeployment_some cfg tk _ htok] <;>
    rw [runLoop_append cfg initOrch pre _ hpre] <;>
    simp only [runLoop, stepEvent]
  rw [procState_indications]
  rfl

theorem indications_only_on_alias_witness :
    (processDeployment cfgPlain
        [Event.advisory IndKind.tip "t", Event.building,
         Event.advisory IndKind.warning "w", Event.aliasAssigned ⟨5, []⟩]).outcome =
      Outcome.ret (RetVal.aliasPayload
        ⟨5, [(IndKind.tip, "t"), (IndKind.warning, "w")]⟩) := by
  have h := (indications_only_on_alias cfgPlain "tok"
    [Event.advisory IndKind.tip "t", Event.building, Event.advisory IndKind.warning "w"]
    ⟨5, []⟩ ⟨6, []⟩ ⟨7, []⟩ rfl (by decide)).1
  simpa [indicationsOf] using h

/-- C9: under `noWait`, a `created` event returns its `Deployment` payload
immediately: events after it are never processed (the whole result is the
same as if the stream ended at `created`), no build-log abort controller
is ever created, and the returned payload is the deployment record, which
carries no indications. -/
theorem noWait_returns_created_payload (cfg : Config) (tk : String)
    (pre rest : List Event) (d : Deployment)
    (htok : cfg.token = some tk) (hnw : cfg.noWait = true)
    (hpre : ∀ e ∈ pre, haltsOn cfg e = false) :
    processDeployment cfg (pre ++ Event.created d :: rest) =
        processDeployment cfg (pre ++ [Event.created d]) ∧
    (processDeployment cfg (pre ++ Event.created d :: rest)).outcome =
        Outcome.ret (RetVal.deployment d) ∧
    (processDeployment cfg (pre ++ Event.created d :: rest)).controllers = [] := by
  have key : ∀ tail : List Event,
      runLoop cfg (procState cfg initOrch pre) (Event.created d :: tail) =
        (Outcome.ret (RetVal.deployment d),
         { indications := (procState cfg initOrch pre).indications,
           controllers := stopSpinnerAbort (procState cfg initOrch pre).controllers,
           linkCalls := (procState cfg initOrch pre).linkCalls + 1 }, []) := by
    intro tail
    simp [runLoop, stepEvent, hnw]
  have hctr : (procState cfg initOrch pre).controllers = [] :=
    procState_controllers_eq cfg initOrch pre hnw hpre
  refine ⟨?_, ?_, ?_⟩ <;>
    rw [processDeployment_some cfg tk _ htok, runLoop_append cfg initOrch pre _ hpre] <;>
    try rw [processDeployment_some cfg tk _ htok, runLoop_append cfg initOrch pre _ hpre]
  · rw [key rest, key []]
  · rw [key rest]
  · rw [key rest]
    simp [hctr, stopSpinnerAbort]

theorem noWait_returns_created_payload_witness :
    (processDeployment ⟨some "tok", true, true, fun _ => errOther⟩
        [Event.advisory IndKind.tip "t", Event.created ⟨"u.vercel.app", "QUEUED"⟩,
         Event.aliasAssigned ⟨9, []⟩] =
      processDeployment ⟨some "tok", true, true, fun _ => errOther⟩
        [Event.advisory IndKind.tip "t", Event.created ⟨"u.vercel.app", "QUEUED"⟩]) ∧
    (processDeployment ⟨some "tok", true, true, fun _ => errOther⟩
        [Event.advisory IndKind.tip "t", Event.created ⟨"u.vercel.app", "QUEUED"⟩,
         Event.aliasAssigned ⟨9, []⟩]).outcome =
      Outcome.ret (RetVal.deployment ⟨"u.vercel.app", "QUEUED"⟩) ∧
    (processDeployment ⟨some "tok", true, true, fun _ => errOther⟩
        [Event.advisory IndKind.tip "t", Event.created ⟨"u.vercel.app", "QUEUED"⟩,
         Event.aliasAssigned ⟨9, []⟩]).controllers = [] := by
  have h := noWait_returns_created_payload ⟨some "tok", true, true, fun _ => errOther⟩
    "tok" [Event.advisory IndKind.tip "t"] [Event.aliasAssigned ⟨9, []⟩]
    ⟨"u.vercel.app", "QUEUED"⟩ rfl rfl (by decide)
  simpa using h

/-- C4: with build-log display disabled, a `ready` event shows the
`Completing` spinner exactly when the payload's `checksState` is absent
or `completed`; any other `checksState` shows nothing, and in every case
the event neither halts the loop nor changes the loop state. -/
theorem ready_completing_iff (cfg : Config) (st : OrchState) (cs : Option ChecksState)
    (h : cfg.withLogs = false) :
    ((stepEvent cfg st (Event.ready cs)).2.2 = [Spinner.completing] ↔
      (cs = none ∨ cs = some ChecksState.completed)) ∧
    (stepEvent cfg st (Event.ready cs)).2.1 = st ∧
    (stepEvent cfg st (Event.ready cs)).1 = none ∧
    (¬(cs = none ∨ cs = some ChecksState.completed) →
      (stepEvent cfg st (Event.ready cs)).2.2 = []) := by
  rcases cs with _ | c
  · simp [stepEvent, checksOk, h]
  · cases c <;> simp [stepEvent, checksOk, h]

theorem ready_completing_iff_witness :
    cfgPlain.withLogs = false ∧
      (stepEvent cfgPlain initOrch (Event.ready (some ChecksState.completed))).2.2 =
        [Spinner.completing] ∧
      (stepEvent cfgPlain initOrch (Event.ready (some ChecksState.running))).2.2 = [] :=
  ⟨rfl,
    (ready_completing_iff cfgPlain initOrch (some ChecksState.completed) rfl).1.mpr
      (Or.inr rfl),
    (ready_completing_iff cfgPlain initOrch (some ChecksState.running) rfl).2.2.2
      (by decide)⟩

/-- C10: when `now._token` is absent, `processDeployment` throws
`Missing authentication token` before the spinner starts and before the
event stream is opened: the result is independent of the event stream (no
event is consumed), no spinner label is shown, no abort controller
exists, and `linkFolderToProject` is never called. -/
theorem missing_token_throws_before_stream (cfg : Config) (evs : List Event)
    (h : cfg.token = none) :
    processDeployment cfg evs = ⟨Outcome.thrown Err.missingToken, [], [], 0⟩ ∧
      processDeployment cfg evs = processDeployment cfg [] := by
  unfold processDeployment
  rw [h]
  exact ⟨rfl, rfl⟩

theorem missing_token_throws_before_stream_witness :
    (⟨none, false, false, fun _ => errOther⟩ : Config).token = none ∧
      processDeployment ⟨none, false, false, fun _ => errOther⟩
          [Event.created ⟨"u", "QUEUED"⟩, Event.aliasAssigned ⟨1, []⟩] =
        ⟨Outcome.thrown Err.missingToken, [], [], 0⟩ :=
  ⟨rfl,
    (missing_token_throws_before_stream ⟨none, false, false, fun _ => errOther⟩
      [Event.created ⟨"u", "QUEUED"⟩, Event.aliasAssigned ⟨1, []⟩] rfl).1⟩

/-! ## Status-ordering (spinner trace) properties -/

/-- No `Building` label appears anywhere after a `Completing` label. -/
def noBuildAfterComplete : List Spinner → Bool
  | [] => true
  | Spinner.completing :: rest => rest.all fun l => decide (l ≠ Spinner.building)
  | _ :: rest => noBuildAfterComplete rest

/-- Events whose handler can show the `Building` label: `created` (when
`readyState` is not `QUEUED`) and `building`. -/
def emitsBuildingEv : Event → Bool
  | .created _ => true
  | .building => true
  | _ => false

def isReadyEv : Event → Bool
  | .ready _ => true
  | _ => false

/-- The fragment of the stream's ordering contract relevant here: no
`created` or `building` event arrives after a `ready` event. -/
def lifecycleOrdered : List Event → Bool
  | [] => true
  | e :: rest =>
      (if isReadyEv e then rest.all fun x => !emitsBuildingEv x else true) &&
        lifecycleOrdered rest

theorem step_no_building (cfg : Config) (st : OrchState) (e : Event)
    (h : emitsBuildingEv e = false) :
    Spinner.building ∉ (stepEvent cfg st e).2.2 := by
  cases e <;> simp_all [stepEvent, emitsBuildingEv] <;> split <;> simp_all

theorem step_no_completing (cfg : Config) (st : OrchState) (e : Event)
    (h : isReadyEv e = false) :
    Spinner.completing ∉ (stepEvent cfg st e).2.2 := by
  cases e <;> simp_all [stepEvent, isReadyEv] <;> split <;> simp_all <;>
    split <;> simp_all

theorem halt_out_nil (cfg : Config) {st st1 : OrchState} {e : Event} {o : Outcome}
    {out : List Spinner} (h : stepEvent cfg st e = (some o, st1, out)) :
    out = [] := by
  cases e <;> simp_all [stepEvent] <;> split at h <;> simp_all

theorem runLoop_no_building (cfg : Config) (st : OrchState) (evs : List Event)
    (h : ∀ e ∈ evs, emitsBuildingEv e = false) :
    Spinner.building ∉ (runLoop cfg st evs).2.2 := by
  induction evs generalizing st with
  | nil => simp [runLoop]
  | cons e rest ih =>
      rcases hse : stepEvent cfg st e with ⟨o, st1, out⟩
      have hnb : Spinner.building ∉ out := by
        have hsb := step_no_building cfg st e (h e (by simp))
        rw [hse] at hsb
        exact hsb
      cases o with
      | some o =>
          rw [runLoop_cons_halt cfg rest hse]
          exact hnb
      | none =>
          rw [runLoop_cons_cont cfg rest hse]
          simp only [List.mem_append]
          rintro (h1 | h2)
          · exact hnb h1
          · exact ih st1 (fun x hx => h x (by simp [hx])) h2

theorem noBuildAfterComplete_of_no_building (t : List Spinner)
    (h : Spinner.building ∉ t) : noBuildAfterComplete t = true := by
  induction t with
  | nil => rfl
  | cons l rest ih =>
      have hrest : Spinner.building ∉ rest := fun hx => h (by simp [hx])
      cases l <;> simp only [noBuildAfterComplete] <;> try exact ih hrest
      simp only [List.all_eq_true, decide_eq_true_eq]
      intro x hx hxb
      exact hrest (hxb ▸ hx)

theorem noBuildAfterComplete_cons (l : Spinner) (t : List Spinner)
    (h : l ≠ Spinner.completing) :
    noBuildAfterComplete (l :: t) = noBuildAfterComplete t := by
  cases l <;> simp_all [noBuildAfterComplete]

theorem noBuildAfterComplete_append (out t : List Spinner)
    (h : Spinner.completing ∉ out) (ht : noBuildAfterComplete t = true) :
    noBuildAfterComplete (out ++ t) = true := by
  induction out with
  | nil => simpa
  | cons l ls ih =>
      have hl : l ≠ Spinner.completing := fun hx => h (by simp [hx])
      rw [List.cons_append, noBuildAfterComplete_cons l _ hl]
      exact ih fun hx => h (by simp [hx])

theorem runLoop_ordered_noBuild (cfg : Config) (st : OrchState) (evs : List Event)
    (h : lifecycleOrdered evs = true) :
    noBuildAfterComplete (runLoop cfg st evs).2.2 = true := by
  induction evs generalizing st with
  | nil => rfl
  | cons e rest ih =>
      simp only [lifecycleOrdered, Bool.and_eq_true] at h
      rcases hse : stepEvent cfg st e with ⟨o, st1, out⟩
      cases o with
      | some o =>
          rw [runLoop_cons_halt cfg rest hse, halt_out_nil cfg hse]
          rfl
      | none =>
          rw [runLoop_cons_cont cfg rest hse]
          simp only
          by_cases hr : isReadyEv e = true
          · have hnb : ∀ x ∈ rest, emitsBuildingEv x = false := by
              have h1 := h.1
              rw [if_pos hr] at h1
              simpa [List.all_eq_true] using h1
            have hT : Spinner.building ∉ (runLoop cfg st1 rest).2.2 :=
              runLoop_no_building cfg st1 rest hnb
            have hout : Spinner.building ∉ out := by
              have hsb : emitsBuildingEv e = false := by
                cases e <;> simp_all [isReadyEv, emitsBuildingEv]
              have hsb2 := step_no_building cfg st e hsb
              rw [hse] at hsb2
              exact hsb2
            refine noBuildAfterComplete_of_no_building _ fun hx => ?_
            rcases List.mem_append.mp hx with h1 | h2
            · exact hout h1
            · exact hT h2
          · have hnc : Spinner.completing ∉ out := by
              have hsc := step_no_completing cfg st e (by simpa using hr)
              rw [hse] at hsc
              exact hsc
            exact noBuildAfterComplete_append out _ hnc (ih st1 h.2)

/-- C3 (counterexample): the orchestrator does not itself enforce the
status order — a stream that emits `building` after `ready` makes it show
`Building` after `Completing` has been shown, so not every event sequence
yields a monotonic status walk. -/
theorem building_shown_after_completing :
    (processDeployment cfgPlain
        [Event.created ⟨"u", "BUILDING"⟩, Event.ready none, Event.building]).trace =
      [Spinner.deploying, Spinner.building, Spinner.completing, Spinner.building] ∧
    noBuildAfterComplete (processDeployment cfgPlain
        [Event.created ⟨"u", "BUILDING"⟩, Event.ready none, Event.building]).trace =
      false := by
  exact ⟨by decide, by decide⟩

/-- C3 (amended): the monotonicity of the displayed statuses relies on the
server's event ordering; for every event sequence in which no `created`
or `building` event arrives after a `ready` event — the fragment of the
stream's ordering contract the orchestrator relies on — the `Building`
status is never shown after the `Completing` status. -/
theorem ordered_stream_no_building_after_completing (cfg : Config) (evs : List Event)
    (h : lifecycleOrdered evs = true) :
    noBuildAfterComplete (processDeployment cfg evs).trace = true := by
  unfold processDeployment
  cases cfg.token with
  | none => rfl
  | some tk =>
      simpa [noBuildAfterComplete] using runLoop_ordered_noBuild cfg initOrch evs h

theorem ordered_stream_no_building_after_completing_witness :
    lifecycleOrdered
        [Event.created ⟨"u", "QUEUED"⟩, Event.building, Event.checksRunning,
         Event.ready none, Event.aliasAssigned ⟨1, []⟩] = true ∧
      noBuildAfterComplete (processDeployment cfgPlain
        [Event.created ⟨"u", "QUEUED"⟩, Event.building, Event.checksRunning,
         Event.ready none, Event.aliasAssigned ⟨1, []⟩]).trace = true :=
  ⟨by decide,
    ordered_stream_no_building_after_completing cfgPlain
      [Event.created ⟨"u", "QUEUED"⟩, Event.building, Event.checksRunning,
       Event.ready none, Event.aliasAssigned ⟨1, []⟩] (by decide)⟩

/-! ## Abort-controller properties -/

theorem all_tail_all (l : List Bool) (h : l.all id = true) : l.tail.all id = true := by
  cases l <;> simp_all

theorem stopSpinnerAbort_all (l : List Bool) (h : l.tail.all id = true) :
    (stopSpinnerAbort l).all id = true := by
  cases l <;> simp_all [stopSpinnerAbort]

theorem step_tail_aborted (cfg : Config) (st : OrchState) (e : Event)
    (h : st.controllers.tail.all id = true) :
    (stepEvent cfg st e).2.1.controllers.tail.all id = true := by
  cases e <;>
    simp only [stepEvent] <;>
    try exact h
  case created d =>
      split
      · exact all_tail_all _ (stopSpinnerAbort_all _ h)
      · split
        · simpa using stopSpinnerAbort_all _ h
        · exact all_tail_all _ (stopSpinnerAbort_all _ h)
  case canceled p => exact all_tail_all _ (stopSpinnerAbort_all _ h)
  case ready cs => split <;> exact h
  case building => split <;> exact h
  case checksRunning => split <;> exact h
  case checksFailed p => exact all_tail_all _ (stopSpinnerAbort_all _ h)
  case errorEvent pid =>
      split
      · exact all_tail_all _ (stopSpinnerAbort_all _ h)
      · exact all_tail_all _ (stopSpinnerAbort_all _
          (all_tail_all _ (stopSpinnerAbort_all _ h)))
  case aliasAssigned p => exact all_tail_all _ (stopSpinnerAbort_all _ h)

theorem step_halt_all_aborted (cfg : Config) {st st1 : OrchState} {e : Event}
    {o : Outcome} {out : List Spinner}
    (hp : st.controllers.tail.all id = true)
    (h : stepEvent cfg st e = (some o, st1, out)) :
    st1.controllers.all id = true := by
  cases e <;> simp only [stepEvent] at h
  case advisory k m => simp at h
  case fileCount u s => simp at h
  case fileUploaded => simp at h
  case created d =>
      split at h
      · cases h
        exact stopSpinnerAbort_all _ hp
      · split at h <;> simp at h
  case building => split at h <;> simp at h
  case canceled p =>
      cases h
      exact stopSpinnerAbort_all _ hp
  case ready cs => split at h <;> simp at h
  case checksRunning => split at h <;> simp at h
  case checksFailed p =>
      cases h
      exact stopSpinnerAbort_all _ hp
  case errorEvent pid =>
      split at h <;> cases h
      · exact stopSpinnerAbort_all _ hp
      · exact stopSpinnerAbort_all _ (all_tail_all _ (stopSpinnerAbort_all _ hp))
  case aliasAssigned p =>
      cases h
      exact stopSpinnerAbort_all _ hp

theorem runLoop_halt_controllers (cfg : Config) (st : OrchState) (evs : List Event)
    (hp : st.controllers.tail.all id = true)
    (h : (runLoop cfg st evs).1 ≠ Outcome.ret RetVal.undef) :
    (runLoop cfg st evs).2.1.controllers.all id = true := by
  induction evs generalizing st with
  | nil => simp [runLoop] at h
  | cons e rest ih =>
      rcases hse : stepEvent cfg st e with ⟨o, st1, out⟩
      cases o with
      | some o =>
          rw [runLoop_cons_halt cfg rest hse]
          exact step_halt_all_aborted cfg hp hse
      | none =>
          rw [runLoop_cons_cont cfg rest hse] at h ⊢
          have hp1 : st1.controllers.tail.all id = true := by
            have hh := step_tail_aborted cfg st e hp
            rw [hse] at hh
            exact hh
          exact ih st1 hp1 (by simpa using h)

/-- A configuration with a token, waiting enabled and follow-mode build
logs enabled. -/
def cfgLogs : Config := ⟨some "tok", false, true, fun _ => errOther⟩

/-- C6 (counterexample): a stream that ends without any terminal event —
here it ends right after `created` started the follow-mode log
subscription — makes the `for await` loop exhaust and the function return
`undefined` without running `stopSpinner`, leaving the subscription's
abort controller unaborted; so not every event sequence leaves the log
connection aborted after the orchestrator finishes. -/
theorem exhausted_stream_leaves_subscription_open :
    (processDeployment cfgLogs [Event.created ⟨"u", "BUILDING"⟩]).outcome =
        Outcome.ret RetVal.undef ∧
      (processDeployment cfgLogs [Event.created ⟨"u", "BUILDING"⟩]).controllers =
        [false] ∧
      (processDeployment cfgLogs
          [Event.created ⟨"u", "BUILDING"⟩]).controllers.all id = false := by
  exact ⟨by decide, by decide, by decide⟩

/-- C6 (amended): on every path that ends the primary flow through the
loop body — a return on a terminal event (or on `created` under
`noWait`) or a thrown error — every abort controller created for a
build-log subscription has been aborted; only a stream that exhausts
without a terminal event (outcome `undefined`) can leave the subscription
unaborted. -/
theorem halting_outcome_aborts_controllers (cfg : Config) (evs : List Event)
    (h : (processDeployment cfg evs).outcome ≠ Outcome.ret RetVal.undef) :
    (processDeployment cfg evs).controllers.all id = true := by
  unfold processDeployment at h ⊢
  cases htok : cfg.token with
  | none => rfl
  | some tk =>
      rw [htok] at h
      exact runLoop_halt_controllers cfg initOrch evs rfl h

theorem halting_outcome_aborts_controllers_witness :
    (processDeployment cfgLogs
        [Event.created ⟨"u", "BUILDING"⟩, Event.aliasAssigned ⟨1, []⟩]).outcome ≠
        Outcome.ret RetVal.undef ∧
      (processDeployment cfgLogs
          [Event.created ⟨"u", "BUILDING"⟩,
           Event.aliasAssigned ⟨1, []⟩]).controllers.all id = true :=
  ⟨by decide,
    halting_outcome_aborts_controllers cfgLogs
      [Event.created ⟨"u", "BUILDING"⟩, Event.aliasAssigned ⟨1, []⟩] (by decide)⟩

/-! ## Upload-progress reporting (`updateProgress`) -/

/-- One invocation of the `updateProgress` closure of the `file-count`
handler: `u` is the cumulative `uploadedBytes` summed over the upload
tasks, `S` the total missing size, and `nextQ` the current `nextStep`
threshold in quarter units (the TypeScript code keeps
`nextStep = nextQ * stepSize` with `stepSize` `0.25` off a TTY and `0`
on one, so on a TTY the threshold stays `0`).  The floating comparison
`percent >= nextStep`, with `percent = u / S`, is the exact rational
test `nextQ * S ≤ 4 * u` whenever `0 < S` (both sides of the source
comparison are exactly representable in quarters).  Returns whether an
upload progress line was emitted and the updated threshold; a falsy bar
re-shows the deploying spinner and emits no progress line. -/
def updateProgress (isTTY : Bool) (S nextQ u : Nat) : Bool × Nat :=
  if progressBar u S then
    if nextQ * S ≤ 4 * u then (true, nextQ + (if isTTY then 0 else 1))
    else (false, nextQ)
  else (false, nextQ)

/-- The number of upload progress lines emitted over a sequence of
progress-callback byte counts, threading the threshold. -/
def progressReports (isTTY : Bool) (S : Nat) : Nat → List Nat → Nat
  | _, [] => 0
  | nextQ, u :: rest =>
      (if (updateProgress isTTY S nextQ u).1 then 1 else 0) +
        progressReports isTTY S (updateProgress isTTY S nextQ u).2 rest

theorem progressReports_le (S : Nat) (hS : 0 < S) (samples : List Nat)
    (hb : ∀ u ∈ samples, u ≤ S) (nextQ : Nat) :
    progressReports false S nextQ samples ≤ 5 - nextQ := by
  induction samples generalizing nextQ with
  | nil => simp [progressReports]
  | cons u rest ih =>
      have hbrest : ∀ x ∈ rest, x ≤ S := fun x hx => hb x (by simp [hx])
      by_cases hbar : progressBar u S = true
      · by_cases hth : nextQ * S ≤ 4 * u
        · have hup : updateProgress false S nextQ u = (true, nextQ + 1) := by
            simp [updateProgress, hbar, hth]
          have hu : u ≤ S := hb u (by simp)
          have h4 : nextQ ≤ 4 := by
            by_contra hgt
            push_neg at hgt
            have h5 : 5 * S ≤ nextQ * S := Nat.mul_le_mul_right S hgt
            have h4u : 4 * u ≤ 4 * S := Nat.mul_le_mul_left 4 hu
            have hchain : 5 * S ≤ 4 * S := le_trans h5 (le_trans hth h4u)
            omega
          have hrec := ih hbrest (nextQ + 1)
          simp only [progressReports, hup]
          simp only [eq_self_iff_true, if_true]
          omega
        · have hup : updateProgress false S nextQ u = (false, nextQ) := by
            simp [updateProgress, hbar, hth]
          have hrec := ih hbrest nextQ
          simp only [progressReports, hup]
          simp only [Bool.false_eq_true, if_false]
          omega
      · have hup : updateProgress false S nextQ u = (false, nextQ) := by
          simp [updateProgress, hbar]
        have hrec := ih hbrest nextQ
        simp only [progressReports, hup]
        simp only [Bool.false_eq_true, if_false]
        omega

theorem progressReports_tty (S : Nat) (hS : 0 < S) (samples : List Nat)
    (hb : ∀ u ∈ samples, u ≤ S) :
    progressReports true S 0 samples = samples.length := by
  induction samples with
  | nil => rfl
  | cons u rest ih =>
      have hu : u ≤ S := hb u (by simp)
      have hbar : progressBar u S = true := by
        simp only [progressBar, decide_eq_true_eq]
        exact ⟨hS, hu⟩
      have hup : updateProgress true S 0 u = (true, 0) := by
        simp [updateProgress, hbar]
      simp only [progressReports, hup, List.length_cons]
      simp only [eq_self_iff_true, if_true]
      rw [ih fun x hx => hb x (by simp [hx])]
      omega

/-- C5: on a transfer of total missing size `S > 0` where every
cumulative byte count stays within `S`, the non-TTY policy
(`stepSize = 0.25`) emits at most 5 upload progress reports over any
sequence of progress callbacks — one per crossed 25% threshold starting
at 0% — while the TTY policy (`stepSize = 0`) emits a report on every
callback. -/
theorem progress_report_policy (S : Nat) (samples : List Nat)
    (hS : 0 < S) (hb : ∀ u ∈ samples, u ≤ S) :
    progressReports false S 0 samples ≤ 5 ∧
      progressReports true S 0 samples = samples.length :=
  ⟨by simpa using progressReports_le S hS samples hb 0,
    progressReports_tty S hS samples hb⟩

theorem progress_report_policy_witness :
    0 < 1024 ∧
      (∀ u ∈ [0, 128, 256, 384, 512, 640, 768, 896, 1024], u ≤ 1024) ∧
      progressReports false 1024 0 [0, 128, 256, 384, 512, 640, 768, 896, 1024] ≤ 5 ∧
      progressReports true 1024 0 [0, 128, 256, 384, 512, 640, 768, 896, 1024] = 9 :=
  ⟨by decide, by decide,
    (progress_report_policy 1024 [0, 128, 256, 384, 512, 640, 768, 896, 1024]
      (by decide) (by decide)).1,
    (progress_report_policy 1024 [0, 128, 256, 384, 512, 640, 768, 896, 1024]
      (by decide) (by decide)).2⟩

/-! ## Build-log stream decoding -/

/-- Modelled from the spec: the newline-delimited JSON decoding of the
build-log response body.  `createLogsIterator` pipes the body through the
external `jsonlines` parser (whose code is not part of this repository)
and forwards its `data` events; per the spec, the consumer decodes the
body line by line and a malformed line is a fatal stream error with no
partial-record recovery.  `parse` stands for JSON parsing of one line;
entries are abstracted as the parse results. -/
inductive LogStream where
  | ok (entries : List Nat)
  | fatal (entries : List Nat) (badLine : String)
deriving DecidableEq, Repr

/-- Modelled from the spec: line-by-line decoding of the streamed body;
the first unparsable line terminates the stream with an error and no
entry at or after it is delivered. -/
def decodeLogStream (parse : String → Option Nat) : List String → LogStream
  | [] => .ok []
  | line :: rest =>
      match parse line with
      | none => .fatal [] line
      | some v =>
          match decodeLogStream parse rest with
          | .ok es => .ok (v :: es)
          | .fatal es bad => .fatal (v :: es) bad

/-- The orchestrator run alongside the follow-mode build-log
subscription it spawned: the primary outcome is computed from the
deployment event stream alone, the decoded log stream from the log
response body alone. -/
def runWithBuildLogs (cfg : Config) (evs : List Event) (parse : String → Option Nat)
    (logLines : List String) : Result × LogStream :=
  (processDeployment cfg evs, decodeLogStream parse logLines)

/-- C8: a response-body line that fails to parse is a fatal stream
error: the decoded stream is `fatal`, carrying exactly the entries of the
lines before the malformed one — nothing at or after it is delivered and
no recovery is attempted (the lines after it are ignored entirely) — and
the primary deployment outcome is a function of the deployment events
only, unaffected by the log lines. -/
theorem malformed_line_fatal (parse : String → Option Nat)
    (pre : List String) (bad : String) (post other : List String)
    (cfg : Config) (evs : List Event)
    (hpre : ∀ l ∈ pre, (parse l).isSome = true)
    (hbad : parse bad = none) :
    decodeLogStream parse (pre ++ bad :: post) =
        LogStream.fatal (pre.filterMap parse) bad ∧
      (runWithBuildLogs cfg evs parse (pre ++ bad :: post)).1 =
        (runWithBuildLogs cfg evs parse other).1 := by
  refine ⟨?_, rfl⟩
  induction pre with
  | nil =>
      simp only [List.nil_append, List.filterMap_nil, decodeLogStream, hbad]
  | cons l ls ih =>
      have hl : (parse l).isSome = true := hpre l (by simp)
      rcases hv : parse l with _ | v
      · rw [hv] at hl
        simp at hl
      · have hrec := ih fun x hx => hpre x (by simp [hx])
        simp only [List.cons_append, decodeLogStream, hv, List.append_eq, hrec,
          List.filterMap_cons]

/-- A sample line parser for the witness: every line parses to its
length, except the line "bad", which is malformed. -/
def sampleParse (s : String) : Option Nat :=
  if s = "bad" then none else some s.length

theorem malformed_line_fatal_witness :
    (∀ l ∈ ["a", "bb"], (sampleParse l).isSome = true) ∧
      sampleParse "bad" = none ∧
      decodeLogStream sampleParse ["a", "bb", "bad", "cccc"] =
        LogStream.fatal [1, 2] "bad" := by
  refine ⟨by decide, by decide, ?_⟩
  have h := (malformed_line_fatal sampleParse ["a", "bb"] "bad" ["cccc"] []
    cfgPlain [] (by decide) (by decide)).1
  have h2 : List.filterMap sampleParse ["a", "bb"] = [1, 2] := by decide
  rw [h2] at h
  exact h

end Deploy
